import Mathlib

/-
  Verification development for the go-sar archive library.

  Paths are modelled as lists of segments (the pieces between path
  separators).  Go's `filepath.Clean` is modelled at the segment level by
  its documented algorithm; machine integers (int64 counters and limits)
  are modelled as unbounded Int, since none of the verified properties
  depends on 64-bit wraparound.  Errors are a single inductive type with
  a `wrapped` constructor mirroring `errors.Wrap`, including the fact
  that wrapping a nil error yields nil.
-/

set_option maxRecDepth 10000

/-! ## Path segments and cleaning (filepath.Clean at segment level) -/

/-- A path segment is sane when it is not empty, not ".", and not "..". -/
def saneSeg (s : String) : Prop :=
  s ≠ ("") ∧ s ≠ (".") ∧ s ≠ ("..")

instance (s : String) : Decidable (saneSeg s) := by
  unfold saneSeg; infer_instance

/-- One step of Go filepath.Clean: drop empty and "." segments; on ".."
    pop the previous segment (for a rooted path a leading ".." vanishes,
    for a relative path it is kept). The accumulator holds the output in
    reverse order. -/
def cleanStep (rooted : Bool) (stack : List String) (seg : String) : List String :=
  if seg = ("") ∨ seg = (".") then stack
  else if seg = ("..") then
    match stack with
    | [] => if rooted then [] else [(".."), ]
    | top :: rest => if top = ("..") then seg :: stack else rest
  else seg :: stack

/-- Segment-level model of Go filepath.Clean applied to a segment list. -/
def cleanSegs (rooted : Bool) (p : List String) : List String :=
  (p.foldl (cleanStep rooted) []).reverse

/-- Segment-level model of Go filepath.Join: concatenate then clean. -/
def joinSegs (rooted : Bool) (a b : List String) : List String :=
  cleanSegs rooted (a ++ b)

/-- Modelled from the spec: the repository's `cleanPath` helper is not in
    the provided sources (only its call sites in Extract are).  Per the
    spec, extraction "normalizes the entry's name and link-name" and an
    implementation "MUST reject or sanitize names containing `..` segments
    that would escape the destination root".  We model it as cleaning the
    name as a rooted path (so leading ".." segments are discarded), which
    yields a sane relative segment list. -/
def cleanPathSegs (p : List String) : List String :=
  cleanSegs true p

/-- The destination path Extract computes for an entry name:
    `path := filepath.Join(base, cleanPath(h.Name))`, with the destination
    root treated as an absolute (rooted) path. -/
def destPath (base name : List String) : List String :=
  joinSegs true base (cleanPathSegs name)

/-! ## The size-limiting writer (limit.go, LimitWriter.Write)

    The wrapped sink is an arbitrary stateful delegate of type
    `σ → List Nat → Nat × σ × Option WErr` returning how many bytes it
    accepted, its next state, and an optional error, mirroring Go's
    `io.Writer` contract. -/

/-- Errors surfaced by the limited writer. -/
inductive WErr where
  | limitExceeded
  | delegateErr
deriving DecidableEq

/-- The LimitWriter state: configured limit and cumulative written count. -/
structure LW where
  limit : Int
  written : Int
deriving DecidableEq

/-- Model of NewLimitWriter: fresh counter. -/
def newLimitWriter (limit : Int) : LW :=
  { limit := limit, written := 0 }

/-- Model of LimitWriter.Write: if `written + len(p)` would exceed the
    limit, return (0, WriteLimitExceeded) without touching the delegate;
    otherwise delegate and advance `written` by the bytes accepted. -/
def lwWrite {σ : Type} (deleg : σ → List Nat → Nat × σ × Option WErr)
    (w : LW) (s : σ) (p : List Nat) : Nat × LW × σ × Option WErr :=
  if w.written + (p.length : Int) > w.limit then
    (0, w, s, some WErr.limitExceeded)
  else
    let r := deleg s p
    (r.1, { w with written := w.written + (r.1 : Int) }, r.2.1, r.2.2)

/-- Run a sequence of writes, also accumulating the total number of bytes
    handed to (and accepted by) the delegate. -/
def lwRunD {σ : Type} (deleg : σ → List Nat → Nat × σ × Option WErr) :
    LW → σ → List (List Nat) → LW × σ × Int
  | w, s, [] => (w, s, 0)
  | w, s, p :: ps =>
    let r := lwWrite deleg w s p
    let rest := lwRunD deleg r.2.1 r.2.2.1 ps
    (rest.1, rest.2.1, (r.1 : Int) + rest.2.2)

/-- A concrete delegate accepting everything, for the witness. -/
def allAcceptDeleg (s : List Nat) (p : List Nat) : Nat × List Nat × Option WErr :=
  (p.length, s ++ p, none)

/-! ## Archive entries (the tar header fields the engine uses) -/

/-- Entry types (tar type flags the extraction loop dispatches on). -/
inductive EType where
  | dir
  | reg
  | symlink
  | hardlink
  | chr
  | blk
  | other
deriving DecidableEq

/-- One archive entry: the header fields go-sar reads and writes, plus the
    payload for regular files. -/
structure Entry where
  name : List String := []
  etype : EType := EType.reg
  perm : Nat := 0
  content : List Nat := []
  linkname : List String := []
  uid : Int := 0
  gid : Int := 0
  mtime : Int := 0
  atime : Int := 0
  devMajor : Int := 0
  devMinor : Int := 0
deriving DecidableEq

/-- Error values of the engine.  `wrapped` models `errors.Wrap(err, msg)`
    for non-nil err. -/
inductive SarErr where
  | readLimitExceeded
  | eofErr
  | linkErr
  | mknodErr
  | unsupportedType
  | destMissing
  | destNotDir
  | compressorNotSupported
  | typeNotSupported
  | typeNotImplemented
  | wrapped (msg : String) (cause : SarErr)
deriving DecidableEq

/-- Model of github.com/pkg/errors.Wrap: wrapping a nil error yields nil. -/
def wrapErr (msg : String) : Option SarErr → Option SarErr
  | none => none
  | some e => some (SarErr.wrapped msg e)

/-! ## AddEntry (create.go) -/

/-- Write-side archive state for AddEntry: archive type, read limit,
    cumulative payload bytes read, headers written and payload bytes
    emitted into the archive stream.  The handle is assumed already set
    up (SetupWriter is modelled separately on GoArchive). -/
structure ArchState where
  atype : Int := 1
  readLimit : Int := 0
  readbytes : Int := 0
  headers : List Entry := []
  bytesOut : List Nat := []
deriving DecidableEq

/-- Model of Archive.AddEntry for an entry whose header declares
    `declSize` payload bytes while the file currently holds `avail`
    (io.CopyN copies min of both and reports io.EOF on a short source).
    Mirrors create.go: type check, header write, read-limit check before
    copying, CopyN, then the error returns in source order. -/
def addEntry (st : ArchState) (e : Entry) (declSize : Nat) (avail : List Nat) :
    ArchState × Option SarErr :=
  if st.atype = 1 then
    let st1 := { st with headers := st.headers ++ [e] }
    if e.etype = EType.reg then
      if st1.readLimit > 0 ∧ st1.readbytes + (declSize : Int) > st1.readLimit then
        (st1, some SarErr.readLimitExceeded)
      else
        let n := min declSize avail.length
        let copyErr : Option SarErr :=
          if avail.length < declSize then some SarErr.eofErr else none
        let st2 := { st1 with bytesOut := st1.bytesOut ++ avail.take n,
                              readbytes := st1.readbytes + (n : Int) }
        if copyErr.isSome then (st2, wrapErr ("adding file") copyErr)
        else if n < declSize then (st2, wrapErr ("short read") copyErr)
        else (st2, none)
    else (st1, none)
  else (st, some SarErr.typeNotImplemented)

/-! ## The create-side walk (create.go, ArchivePath) -/

mutual
/-- A filesystem subtree: regular files, directories and symlinks.  (A
    hard-linked file appears to the walk as an ordinary regular file:
    tar.FileInfoHeader has no inode information, so ArchivePath archives
    it as an independent regular entry.) -/
inductive FsTree where
  | file (perm : Nat) (content : List Nat) (uid gid mtime atime : Int)
  | dir (perm : Nat) (uid gid mtime atime : Int) (children : FsForest)
  | symlink (target : List String)

/-- Named children of a directory, in walk (pre-)order. -/
inductive FsForest where
  | nil
  | cons (name : String) (t : FsTree) (rest : FsForest)
end

mutual
/-- Entries produced for a subtree rooted at archive name `name`:
    the entry for the object itself followed, for directories, by the
    entries of the children (filepath.Walk pre-order). -/
def entriesOf (name : List String) : FsTree → List Entry
  | FsTree.file perm content uid gid mtime atime =>
      [{ name := name, etype := EType.reg, perm := perm, content := content,
         uid := uid, gid := gid, mtime := mtime, atime := atime }]
  | FsTree.symlink target =>
      [{ name := name, etype := EType.symlink, perm := 511, linkname := target }]
  | FsTree.dir perm uid gid mtime atime ch =>
      { name := name, etype := EType.dir, perm := perm,
        uid := uid, gid := gid, mtime := mtime, atime := atime }
        :: entriesOfForest name ch

/-- Entries of a forest: each child under `name ++ [childName]`. -/
def entriesOfForest (name : List String) : FsForest → List Entry
  | FsForest.nil => []
  | FsForest.cons n t rest =>
      entriesOf (name ++ [n]) t ++ entriesOfForest name rest
end

/-- Model of Archive.ArchivePath for one root whose filepath.Base is
    `rootBase` and whose content is `t` (create.go lines 19-58): if the
    base name is ".." or "." nothing is prepended, otherwise every entry
    name is prefixed with the base name; a non-directory root is archived
    directly under its base name; a directory root with empty prepend
    contributes no entry of its own. -/
def archivePathRoot (rootBase : String) (t : FsTree) : List Entry :=
  let prepend : List String :=
    if rootBase = ("..") ∨ rootBase = (".") then [] else [rootBase]
  match t with
  | FsTree.dir perm uid gid mtime atime ch =>
      (if prepend = [] then []
       else [{ name := prepend, etype := EType.dir, perm := perm,
               uid := uid, gid := gid, mtime := mtime, atime := atime }])
        ++ entriesOfForest prepend ch
  | FsTree.file perm content uid gid mtime atime =>
      entriesOf [rootBase] (FsTree.file perm content uid gid mtime atime)
  | FsTree.symlink target =>
      entriesOf [rootBase] (FsTree.symlink target)

/-! ## The destination filesystem (for Extract) -/

/-- A filesystem object at a destination path. -/
inductive FsObj where
  | dir (perm : Nat) (uid gid mtime atime : Int)
  | file (perm : Nat) (content : List Nat) (uid gid mtime atime : Int)
  | symlink (target : List String)
  | device (isChar : Bool) (major minor : Int)
deriving DecidableEq

/-- The destination filesystem: a finite map from absolute paths
    (segment lists) to objects. -/
abbrev Fs := List ((List String) × FsObj)

/-- os.Lstat: look a path up. -/
def lookupFs (fs : Fs) (p : List String) : Option FsObj :=
  match fs with
  | [] => none
  | (q, o) :: rest => if q = p then some o else lookupFs rest p

/-- Create or replace the object at a path. -/
def setObjFs (fs : Fs) (p : List String) (o : FsObj) : Fs :=
  (p, o) :: fs.filter (fun kv => kv.1 ≠ p)

/-- os.RemoveAll: drop the path and everything below it. -/
def removeAllFs (fs : Fs) (p : List String) : Fs :=
  fs.filter (fun kv => !(p.isPrefixOf kv.1))

/-- The nonempty ancestors of a path, shortest first (the path itself
    last). -/
def ancestorsOf (p : List String) : List (List String) :=
  (List.range p.length).map (fun i => p.take (i + 1))

/-- os.MkdirAll: create every missing ancestor (and the path itself) as a
    directory with the given permission; existing objects are left as
    they are. -/
def mkdirAllFs (fs : Fs) (p : List String) (perm : Nat) : Fs :=
  (ancestorsOf p).foldl
    (fun acc q =>
      if (lookupFs acc q).isSome then acc
      else setObjFs acc q (FsObj.dir perm 0 0 0 0))
    fs

/-- Update the object stored at a path, if any. -/
def updObjFs (fs : Fs) (p : List String) (f : FsObj → FsObj) : Fs :=
  fs.map (fun kv => if kv.1 = p then (kv.1, f kv.2) else kv)

/-- os.Chown on an object (symlinks and devices carry no modelled
    ownership). -/
def chownObj (o : FsObj) (uid gid : Int) : FsObj :=
  match o with
  | FsObj.dir perm _ _ m a => FsObj.dir perm uid gid m a
  | FsObj.file perm c _ _ m a => FsObj.file perm c uid gid m a
  | o => o

/-- os.Chtimes on an object. -/
def chtimesObj (o : FsObj) (atime mtime : Int) : FsObj :=
  match o with
  | FsObj.dir perm u g _ _ => FsObj.dir perm u g mtime atime
  | FsObj.file perm c u g _ _ => FsObj.file perm c u g mtime atime
  | o => o

/-! ## Extract (extract.go) -/

/-- ExtractOptions (extract.go lines 17-29).  The io handles and the
    accumulated error list are not part of the modelled state; errors are
    counted in the extraction state instead. -/
structure XOpts where
  verbose : Bool
  overwrite : Bool
  interactive : Bool
  restoreOwner : Bool
  restoreTimestamps : Bool
  failOnError : Bool
  showErrors : Bool
deriving DecidableEq

/-- NewExtractOptions (extract.go lines 33-46). -/
def newExtractOptions : XOpts :=
  { verbose := false, overwrite := true, interactive := true,
    restoreOwner := false, restoreTimestamps := true,
    failOnError := false, showErrors := true }

/-- ExtractOptions.Apply (extract.go lines 49-67): chown when
    RestoreOwner, chtimes when RestoreTimestamps.  Metadata-setting
    failures (missing path etc.) are reported as non-fatal problems in
    the source and are not modelled. -/
def applyMeta (o : XOpts) (fs : Fs) (p : List String) (e : Entry) : Fs :=
  let fs1 := if o.restoreOwner then updObjFs fs p (fun ob => chownObj ob e.uid e.gid) else fs
  if o.restoreTimestamps then updObjFs fs1 p (fun ob => chtimesObj ob e.atime e.mtime) else fs1

/-- State threaded through the extraction loop: the destination
    filesystem, the seen-directories set, and counters of skipped
    entries and accumulated non-fatal errors. -/
structure ExtractState where
  fs : Fs
  seen : List (List String)
  skips : Nat
  errs : Nat
deriving DecidableEq

/-- The per-type reconstruction actions (extract.go switch, POSIX
    adapters): returns the updated filesystem, the updated seen set, and
    the per-entry error if any.  The symlink case is not here (it is
    handled before, because the source `continue`s past attribute
    application for symlinks). -/
def dispatchCore (base : List String) (st : ExtractState)
    (path link : List String) (e : Entry) :
    Fs × List (List String) × Option SarErr :=
  match e.etype with
  | EType.dir =>
      (mkdirAllFs st.fs path e.perm, path :: st.seen, none)
  | EType.reg =>
      (setObjFs st.fs path (FsObj.file e.perm e.content 0 0 0 0), st.seen, none)
  | EType.hardlink =>
      let oldp := joinSegs true base link
      let fs1 := removeAllFs st.fs path
      match lookupFs fs1 oldp with
      | some (FsObj.file perm c u g m a) =>
          (setObjFs fs1 path (FsObj.file perm c u g m a), st.seen, none)
      | _ => (fs1, st.seen, some (SarErr.wrapped ("link") SarErr.linkErr))
  | EType.chr =>
      match lookupFs st.fs path with
      | some _ => (st.fs, st.seen, some (SarErr.wrapped ("mknod") SarErr.mknodErr))
      | none => (setObjFs st.fs path (FsObj.device true e.devMajor e.devMinor), st.seen, none)
  | EType.blk =>
      match lookupFs st.fs path with
      | some _ => (st.fs, st.seen, some (SarErr.wrapped ("mknod") SarErr.mknodErr))
      | none => (setObjFs st.fs path (FsObj.device false e.devMajor e.devMinor), st.seen, none)
  | EType.symlink => (st.fs, st.seen, none)
  | EType.other => (st.fs, st.seen, some SarErr.unsupportedType)

/-- Reconstruction of one entry after conflict resolution (extract.go
    lines 191-228).  A symlink is recreated by remove-then-symlink with
    target `filepath.Join(base, h.Linkname)` (POSIX adapter) and skips
    attribute application; other types run dispatchCore, then the error
    policy, then Apply. -/
def dispatchEntry (base : List String) (o : XOpts) (st : ExtractState)
    (path link : List String) (e : Entry) : Except SarErr ExtractState :=
  match e.etype with
  | EType.symlink =>
      Except.ok { st with
        fs := setObjFs (removeAllFs st.fs path) path
          (FsObj.symlink (joinSegs true base link)) }
  | _ =>
    match dispatchCore base st path link e with
    | (fs1, seen1, some er) =>
        let st1 := { st with fs := fs1, seen := seen1, errs := st.errs + 1 }
        if o.failOnError then Except.error er
        else Except.ok { st1 with fs := applyMeta o st1.fs path e }
    | (fs1, seen1, none) =>
        let st1 := { st with fs := fs1, seen := path.dropLast :: seen1 }
        Except.ok { st1 with fs := applyMeta o st1.fs path e }

/-- One iteration of the extraction loop (extract.go lines 110-228):
    clean the entry name, overwrite the link name with the cleaned entry
    name exactly as the source does (`h.Linkname = cleanPath(h.Name)`),
    join with the destination root, then resolve conflicts: skip when the
    path exists and neither overwrite nor interactive mode applies;
    prompt (not modelled: result `none`) when interactive; otherwise
    remove the existing object; for a fresh path ensure the parent
    directory exists once per directory.  `inter` is the effective
    interactive flag (opts.Interactive and stdout being a terminal). -/
def extractStep (base : List String) (basePerm : Nat) (o : XOpts) (inter : Bool)
    (st : ExtractState) (e : Entry) : Option (Except SarErr ExtractState) :=
  let link := cleanPathSegs e.name
  let path := destPath base e.name
  match lookupFs st.fs path with
  | some _ =>
      if !o.overwrite then
        if !inter then some (Except.ok { st with skips := st.skips + 1 })
        else none
      else
        some (dispatchEntry base o { st with fs := removeAllFs st.fs path } path link e)
  | none =>
      if st.seen.contains path.dropLast then
        some (dispatchEntry base o st path link e)
      else
        some (dispatchEntry base o
          { st with fs := mkdirAllFs st.fs path.dropLast basePerm,
                    seen := path.dropLast :: st.seen } path link e)

/-- The extraction loop over the decoded entries. -/
def extractLoop (base : List String) (basePerm : Nat) (o : XOpts) (inter : Bool) :
    ExtractState → List Entry → Option (Except SarErr ExtractState)
  | st, [] => some (Except.ok st)
  | st, e :: rest =>
    match extractStep base basePerm o inter st e with
    | none => none
    | some (Except.error er) => some (Except.error er)
    | some (Except.ok st1) => extractLoop base basePerm o inter st1 rest

/-- Archive.Extract (extract.go lines 70-231): resolve a nil options
    pointer to the defaults, clean the destination root, require it to
    exist and be a directory, then run the loop.  `tty` tells whether
    stdout is a terminal (isatty). -/
def goExtract (base0 : List String) (optsOpt : Option XOpts) (tty : Bool)
    (fs : Fs) (es : List Entry) : Option (Except SarErr ExtractState) :=
  let o := optsOpt.getD newExtractOptions
  let base := cleanPathSegs base0
  match lookupFs fs base with
  | none => some (Except.error SarErr.destMissing)
  | some (FsObj.dir basePerm _ _ _ _) =>
      extractLoop base basePerm o (o.interactive && tty)
        { fs := fs, seen := [], skips := 0, errs := 0 } es
  | some _ => some (Except.error SarErr.destNotDir)

/-- Final lookup helper for concrete evaluations: run goExtract and look
    a path up in the resulting filesystem. -/
def extractLookup (base0 : List String) (optsOpt : Option XOpts) (tty : Bool)
    (fs : Fs) (es : List Entry) (q : List String) : Option FsObj :=
  match goExtract base0 optsOpt tty fs es with
  | some (Except.ok st) => lookupFs st.fs q
  | _ => none

/-! ## SetupWriter / SetupReader (archive.go lines 284-347) -/

/-- The layered write stack: sink, optional limiter, optional gzip
    encoder, tar writer on top. -/
inductive WStack where
  | sink
  | limiter (limit : Int) (inner : WStack)
  | gzipW (inner : WStack)
  | tarW (inner : WStack)
deriving DecidableEq

/-- The layered read stack. -/
inductive RStack where
  | source
  | gzipR (inner : RStack)
  | tarR (inner : RStack)
deriving DecidableEq

/-- The Archive handle state relevant to setup: type and compressor
    selectors (Go ints: 1 = tar, 0 = no compression, 1 = gzip), limits,
    the setup/closed flags and the constructed layer fields. -/
structure GoArchive where
  atype : Int
  comp : Int
  writeLimit : Int
  readLimit : Int
  setup : Bool
  closed : Bool
  tarWL : Option WStack
  pgzipWL : Option WStack
  tarRL : Option RStack
  pgzipRL : Option RStack
deriving DecidableEq

/-- The archive-type switch at the end of SetupWriter. -/
def wFinish (a : GoArchive) (w : WStack) : GoArchive × Option SarErr :=
  if a.atype = 1 then ({ a with tarWL := some (WStack.tarW w), setup := true }, none)
  else (a, some SarErr.typeNotSupported)

/-- Archive.SetupWriter: no-op when already set up; otherwise wrap the
    sink with a limiter when a write limit is configured, then the
    compressor, then the tar writer; unsupported selectors fail. -/
def setupWriter (a : GoArchive) : GoArchive × Option SarErr :=
  if a.setup then (a, none)
  else
    let w1 := if a.writeLimit > 0 then WStack.limiter a.writeLimit WStack.sink else WStack.sink
    if a.comp = 0 then wFinish a w1
    else if a.comp = 1 then
      wFinish { a with pgzipWL := some (WStack.gzipW w1) } (WStack.gzipW w1)
    else (a, some SarErr.compressorNotSupported)

/-- The archive-type switch at the end of SetupReader. -/
def rFinish (a : GoArchive) (r : RStack) : GoArchive × Option SarErr :=
  if a.atype = 1 then ({ a with tarRL := some (RStack.tarR r), setup := true }, none)
  else (a, some SarErr.typeNotSupported)

/-- Archive.SetupReader: no-op when already set up; otherwise construct
    the gzip decoder when selected, then the tar reader (the read limit
    is accepted but not enforced here, as in the source). -/
def setupReader (a : GoArchive) : GoArchive × Option SarErr :=
  if a.setup then (a, none)
  else
    if a.comp = 0 then rFinish a RStack.source
    else if a.comp = 1 then
      rFinish { a with pgzipRL := some (RStack.gzipR RStack.source) } (RStack.gzipR RStack.source)
    else (a, some SarErr.compressorNotSupported)

/-! ## Concrete sample data for witnesses and evaluations -/

/-- A directory with a regular file "a" and a symlink "s" pointing to
    raw target "t". -/
def sampleForest : FsForest :=
  FsForest.cons ("a") (FsTree.file 420 [1, 2, 3] 0 0 0 0)
    (FsForest.cons ("s") (FsTree.symlink [("t")]) FsForest.nil)

/-- The sample subtree rooted at a directory. -/
def sampleTree : FsTree :=
  FsTree.dir 493 0 0 0 0 sampleForest

/-- An empty destination directory "dest". -/
def destFs : Fs :=
  [([("dest")], FsObj.dir 493 0 0 0 0)]

/-- A single symlink entry with raw target "t". -/
def symEntry : Entry :=
  { name := [("s")], etype := EType.symlink, perm := 511, linkname := [("t")] }

/-- A regular-file entry for the AddEntry evaluations. -/
def regEntry : Entry :=
  { name := [("f")], etype := EType.reg, perm := 420 }

/-- A fresh write-side archive handle for a plain tar archive. -/
def tarArchive : GoArchive :=
  { atype := 1, comp := 0, writeLimit := 0, readLimit := 0,
    setup := false, closed := false,
    tarWL := none, pgzipWL := none, tarRL := none, pgzipRL := none }

/-- Options with overwrite disabled, for the conflict-resolution
    witness. -/
def conflictOpts : XOpts :=
  { newExtractOptions with overwrite := false, interactive := false }

/-! # Theorems -/

/-! ## Path cleaning lemmas -/

theorem cleanStep_sane (stack : List String) (seg : String)
    (hst : ∀ s ∈ stack, saneSeg s) : ∀ s ∈ cleanStep true stack seg, saneSeg s := by
  intro s hs
  cases stack with
  | nil =>
    by_cases h1 : seg = ("") ∨ seg = (".")
    · exact absurd hs (by simp [cleanStep, h1])
    · by_cases h2 : seg = ("..")
      · exact absurd hs (by simp [cleanStep, h1, h2])
      · simp [cleanStep, h1, h2] at hs
        push_neg at h1
        exact hs ▸ ⟨h1.1, h1.2, h2⟩
  | cons top rest =>
    have htop := hst top (by simp)
    by_cases h1 : seg = ("") ∨ seg = (".")
    · simp [cleanStep, h1] at hs
      rcases hs with h | h
      · exact h ▸ htop
      · exact hst s (by simp [h])
    · by_cases h2 : seg = ("..")
      · simp [cleanStep, h1, h2, htop.2.2] at hs
        exact hst s (by simp [hs])
      · simp [cleanStep, h1, h2] at hs
        rcases hs with h | h | h
        · push_neg at h1; exact h ▸ ⟨h1.1, h1.2, h2⟩
        · exact h ▸ htop
        · exact hst s (by simp [h])

theorem cleanSegs_foldl_sane (p : List String) :
    ∀ stack, (∀ s ∈ stack, saneSeg s) →
      ∀ s ∈ p.foldl (cleanStep true) stack, saneSeg s := by
  induction p with
  | nil => intro stack hst s hs; exact hst s hs
  | cons x xs ih =>
    intro stack hst s hs
    exact ih (cleanStep true stack x) (cleanStep_sane stack x hst) s hs

/-- Every segment produced by rooted cleaning is sane. -/
theorem cleanSegs_sane (p : List String) :
    ∀ s ∈ cleanSegs true p, saneSeg s := by
  intro s hs
  unfold cleanSegs at hs
  exact cleanSegs_foldl_sane p [] (by intro t ht; cases ht) s (List.mem_reverse.mp hs)

theorem cleanStep_of_sane (rooted : Bool) (stack : List String) (seg : String)
    (h : saneSeg seg) : cleanStep rooted stack seg = seg :: stack := by
  obtain ⟨h1, h2, h3⟩ := h
  unfold cleanStep
  simp [h1, h2, h3]

theorem foldl_cleanStep_sane (rooted : Bool) (p : List String)
    (h : ∀ s ∈ p, saneSeg s) :
    ∀ stack, p.foldl (cleanStep rooted) stack = p.reverse ++ stack := by
  induction p with
  | nil => intro stack; simp
  | cons x xs ih =>
    intro stack
    have hx : saneSeg x := h x (by simp)
    have hxs : ∀ s ∈ xs, saneSeg s := fun s hs => h s (by simp [hs])
    simp only [List.foldl_cons, cleanStep_of_sane rooted stack x hx]
    rw [ih hxs (x :: stack)]
    simp

/-- Cleaning a list of sane segments is the identity. -/
theorem cleanSegs_of_sane (rooted : Bool) (p : List String)
    (h : ∀ s ∈ p, saneSeg s) : cleanSegs rooted p = p := by
  unfold cleanSegs
  rw [foldl_cleanStep_sane rooted p h []]
  simp

/-! ## C1: the write-limit invariant -/

theorem lwRunD_delegated_le {σ : Type}
    (deleg : σ → List Nat → Nat × σ × Option WErr)
    (hδ : ∀ s p, (deleg s p).1 ≤ p.length) :
    ∀ (ps : List (List Nat)) (w : LW) (s : σ), w.written ≤ w.limit →
      (lwRunD deleg w s ps).2.2 ≤ w.limit - w.written := by
  intro ps
  induction ps with
  | nil => intro w s h; simp [lwRunD]; omega
  | cons p ps ih =>
    intro w s h
    simp only [lwRunD]
    by_cases hb : w.written + (p.length : Int) > w.limit
    · simp only [lwWrite, if_pos hb]
      have := ih w s h
      push_cast
      omega
    · simp only [lwWrite, if_neg hb]
      have hn : ((deleg s p).1 : Int) ≤ (p.length : Int) := by
        exact_mod_cast hδ s p
      have hw' : w.written + ((deleg s p).1 : Int) ≤ w.limit := by omega
      have hrec := ih { w with written := w.written + ((deleg s p).1 : Int) }
        (deleg s p).2.1 hw'
      simp only [] at hrec
      omega

/-- Claim C1: with limit N (N ≥ 0) and a delegate that never accepts more
    bytes than offered, (1) over every sequence of writes from a fresh
    LimitWriter the total bytes delegated to the wrapped sink never
    exceeds N; (2) a write whose buffer length plus the bytes already
    written would exceed the limit returns (0, WriteLimitExceeded) and
    leaves the sink state untouched (the delegate is never invoked);
    (3) an accepted write delegates and advances the cumulative counter by
    exactly the number of bytes the delegate accepted. -/
theorem c1_limit_writer_invariant {σ : Type}
    (deleg : σ → List Nat → Nat × σ × Option WErr)
    (hδ : ∀ s p, (deleg s p).1 ≤ p.length) (N : Int) (hN : 0 ≤ N) :
    (∀ (s : σ) (ps : List (List Nat)),
        (lwRunD deleg (newLimitWriter N) s ps).2.2 ≤ N)
    ∧ (∀ (w : LW) (s : σ) (p : List Nat),
        w.written + (p.length : Int) > w.limit →
        lwWrite deleg w s p = (0, w, s, some WErr.limitExceeded))
    ∧ (∀ (w : LW) (s : σ) (p : List Nat),
        ¬ w.written + (p.length : Int) > w.limit →
        lwWrite deleg w s p =
          ((deleg s p).1, { w with written := w.written + ((deleg s p).1 : Int) },
            (deleg s p).2.1, (deleg s p).2.2)) := by
  refine ⟨?_, ?_, ?_⟩
  · intro s ps
    have := lwRunD_delegated_le deleg hδ ps (newLimitWriter N) s
      (by simp only [newLimitWriter]; omega)
    unfold newLimitWriter at this ⊢
    simp at this
    omega
  · intro w s p hover
    simp [lwWrite, hover]
  · intro w s p hok
    simp [lwWrite, hok]

/-- Witness for C1 at a concrete delegate, limit 2 and a 3-byte write. -/
theorem c1_limit_writer_invariant_wit :
    (lwRunD allAcceptDeleg (newLimitWriter 2) [] [[1, 2, 3]]).2.2 ≤ 2
    ∧ lwWrite allAcceptDeleg (newLimitWriter 2) [] [1, 2, 3]
        = (0, newLimitWriter 2, [], some WErr.limitExceeded) := by
  have h := c1_limit_writer_invariant allAcceptDeleg
    (by intro s p; simp [allAcceptDeleg]) 2 (by decide)
  exact ⟨h.1 [] [[1, 2, 3]],
    h.2.1 (newLimitWriter 2) [] [1, 2, 3] (by decide)⟩

/-! ## C2: destination paths stay inside the destination root -/

/-- Claim C2: for every archive entry processed by Extract, the
    destination path computed from the cleaned destination root and the
    entry name (with the spec-modelled cleanPath sanitizing `..`
    segments) has the destination root as a prefix: extraction never
    targets a filesystem object outside the destination root. -/
theorem c2_dest_inside_root (base0 name : List String) :
    cleanPathSegs base0 <+: destPath (cleanPathSegs base0) name := by
  have hb := cleanSegs_sane base0
  have hn := cleanSegs_sane name
  have hall : ∀ s ∈ cleanSegs true base0 ++ cleanSegs true name, saneSeg s := by
    intro s hs
    rcases List.mem_append.mp hs with h | h
    · exact hb s h
    · exact hn s h
  show cleanSegs true base0 <+: cleanSegs true (cleanSegs true base0 ++ cleanSegs true name)
  rw [cleanSegs_of_sane true _ hall]
  exact ⟨cleanSegs true name, rfl⟩

/-! ## C4: the read-limit guard in AddEntry -/

/-- Claim C4: with a positive read limit, adding a regular file whose
    declared size plus the cumulative bytes already read exceeds the
    limit fails with ReadLimitExceeded; no payload byte reaches the
    archive stream and the cumulative read counter is unchanged (only
    the header has been written, as in the source). -/
theorem c4_read_limit_guard (st : ArchState) (e : Entry) (declSize : Nat)
    (avail : List Nat) (htar : st.atype = 1) (hreg : e.etype = EType.reg)
    (hlim : st.readLimit > 0)
    (hover : st.readbytes + (declSize : Int) > st.readLimit) :
    addEntry st e declSize avail
      = ({ st with headers := st.headers ++ [e] }, some SarErr.readLimitExceeded)
    ∧ (addEntry st e declSize avail).1.bytesOut = st.bytesOut
    ∧ (addEntry st e declSize avail).1.readbytes = st.readbytes := by
  have h1 : addEntry st e declSize avail
      = ({ st with headers := st.headers ++ [e] }, some SarErr.readLimitExceeded) := by
    simp [addEntry, htar, hreg, hlim, hover]
  exact ⟨h1, by rw [h1], by rw [h1]⟩

/-- Witness for C4: limit 5, 3 bytes already read, a 4-byte file. -/
theorem c4_read_limit_guard_wit :
    addEntry { atype := 1, readLimit := 5, readbytes := 3 } regEntry 4 [9, 9, 9, 9]
      = ({ atype := 1, readLimit := 5, readbytes := 3, headers := [regEntry] },
          some SarErr.readLimitExceeded) :=
  (c4_read_limit_guard { atype := 1, readLimit := 5, readbytes := 3 } regEntry 4
    [9, 9, 9, 9] rfl rfl (by decide) (by decide)).1

/-! ## C7: short reads surface as a plain wrapped I/O error -/

/-- Claim C7 evaluation: archiving a file whose header declares 100
    bytes while only 40 are available returns the ordinary wrapped I/O
    error ("adding file" around io.EOF), not a distinct short-read
    error; the dedicated short-read return is `errors.Wrap(nil, ...)`,
    which is nil, so it can never produce an error. -/
theorem c7_short_read_eval :
    (addEntry { } regEntry 100 (List.replicate 40 7)).2
        = some (SarErr.wrapped ("adding file") SarErr.eofErr)
    ∧ wrapErr ("short read") none = none
    ∧ (addEntry { } regEntry 100 (List.replicate 40 7)).1.readbytes = 40 := by
  exact ⟨by decide, rfl, by decide⟩

/-! ## C6: the prepend policy of ArchivePath -/

mutual
theorem entriesOf_name_ext : ∀ (pre : List String) (t : FsTree) (e : Entry),
    e ∈ entriesOf pre t → ∃ rest, e.name = pre ++ rest
  | pre, FsTree.file perm c u g m a, e, h => by
      simp [entriesOf] at h
      exact ⟨[], by simp [h]⟩
  | pre, FsTree.symlink tgt, e, h => by
      simp [entriesOf] at h
      exact ⟨[], by simp [h]⟩
  | pre, FsTree.dir perm u g m a ch, e, h => by
      simp [entriesOf] at h
      rcases h with h | h
      · exact ⟨[], by simp [h]⟩
      · exact entriesOfForest_name_ext pre ch e h

theorem entriesOfForest_name_ext : ∀ (pre : List String) (f : FsForest) (e : Entry),
    e ∈ entriesOfForest pre f → ∃ rest, e.name = pre ++ rest
  | pre, FsForest.nil, e, h => by simp [entriesOfForest] at h
  | pre, FsForest.cons n t r, e, h => by
      simp [entriesOfForest] at h
      rcases h with h | h
      · rcases entriesOf_name_ext (pre ++ [n]) t e h with ⟨rest, hr⟩
        exact ⟨[n] ++ rest, by simp [hr]⟩
      · exact entriesOfForest_name_ext pre r e h
end

/-- Claim C6: if the root's base name is "." or "..", ArchivePath
    prepends nothing (a directory root's entries sit at the root of the
    archive namespace); for any other base name, every archived entry's
    name begins with that base name. -/
theorem c6_prepend_policy (b : String) (t : FsTree) :
    ((b = (".") ∨ b = ("..")) →
      ∀ (perm : Nat) (u g m a : Int) (ch : FsForest),
        t = FsTree.dir perm u g m a ch →
        archivePathRoot b t = entriesOfForest [] ch)
    ∧ ((b ≠ (".") ∧ b ≠ ("..")) →
      ∀ e ∈ archivePathRoot b t, e.name.head? = some b) := by
  constructor
  · rintro h perm u g m a ch rfl
    rcases h with h | h <;> subst h <;> simp [archivePathRoot]
  · rintro ⟨h1, h2⟩ e he
    have hpre : (if b = ("..") ∨ b = (".") then ([] : List String) else [b]) = [b] := by
      simp [h1, h2]
    cases t with
    | dir perm u g m a ch =>
      simp only [archivePathRoot, hpre] at he
      simp at he
      rcases he with h | h
      · simp [h]
      · rcases entriesOfForest_name_ext [b] ch e h with ⟨rest, hr⟩
        simp [hr]
    | file perm c u g m a =>
      simp [archivePathRoot, entriesOf] at he
      simp [he]
    | symlink tgt =>
      simp [archivePathRoot, entriesOf] at he
      simp [he]

/-- Witness for C6: the sample tree under root base "." archives with no
    prepend; under root base "root" the root directory entry's name
    begins with "root". -/
theorem c6_prepend_policy_wit :
    archivePathRoot (".") sampleTree = entriesOfForest [] sampleForest
    ∧ ({ name := [("root")], etype := EType.dir, perm := 493 } : Entry).name.head?
        = some ("root") := by
  refine ⟨(c6_prepend_policy (".") sampleTree).1 (Or.inl rfl) 493 0 0 0 0 sampleForest rfl, ?_⟩
  exact (c6_prepend_policy ("root") sampleTree).2 (by decide) _ (by decide)

/-! ## C8: skip-on-conflict leaves existing objects untouched -/

/-- Reconstruction of an entry does not consult the overwrite flag. -/
theorem dispatchEntry_overwrite_irrel (base : List String)
    (v ow ow' it ro rt fo se : Bool) (st : ExtractState)
    (path link : List String) (e : Entry) :
    dispatchEntry base ⟨v, ow, it, ro, rt, fo, se⟩ st path link e
      = dispatchEntry base ⟨v, ow', it, ro, rt, fo, se⟩ st path link e := by
  cases e with
  | mk nm ty perm content linkname uid gid mtime atime dM dm =>
    cases ty <;> rfl

/-- Claim C8: with overwrite disabled and interactive mode unavailable,
    an entry whose destination path already exists is skipped — the
    whole destination filesystem (hence the existing object, its
    contents, permissions and timestamps) is unchanged and only the skip
    counter advances — and for every entry whose destination path does
    not exist the step behaves exactly as it would with overwrite
    enabled (all other entries extract normally). -/
theorem c8_skip_preserves_existing (base : List String) (basePerm : Nat)
    (o : XOpts) (st : ExtractState) (e : Entry)
    (how : o.overwrite = false)
    (hex : (lookupFs st.fs (destPath base e.name)).isSome) :
    extractStep base basePerm o false st e
        = some (Except.ok { st with skips := st.skips + 1 })
    ∧ ∀ (st' : ExtractState) (e' : Entry),
        lookupFs st'.fs (destPath base e'.name) = none →
        extractStep base basePerm o false st' e'
          = extractStep base basePerm { o with overwrite := true } false st' e' := by
  constructor
  · rcases Option.isSome_iff_exists.mp hex with ⟨obj, hobj⟩
    simp [extractStep, hobj, how]
  · intro st' e' hnone
    cases o with
    | mk v ow it ro rt fo se =>
      simp only [extractStep, hnone]
      split <;>
        exact congrArg some (dispatchEntry_overwrite_irrel _ _ _ _ _ _ _ _ _ _ _ _ _)

/-- Witness for C8: a conflicting entry against the sample destination
    is skipped with only the skip counter advancing, and a fresh entry
    extracts identically with or without the overwrite restriction. -/
theorem c8_skip_preserves_existing_wit :
    extractStep [("dest")] 493 conflictOpts false
        { fs := destFs, seen := [], skips := 0, errs := 0 }
        { name := ([] : List String), etype := EType.reg }
      = some (Except.ok { fs := destFs, seen := [], skips := 1, errs := 0 })
    ∧ extractStep [("dest")] 493 conflictOpts false
        { fs := [], seen := [], skips := 0, errs := 0 } regEntry
      = extractStep [("dest")] 493 { conflictOpts with overwrite := true } false
        { fs := [], seen := [], skips := 0, errs := 0 } regEntry := by
  have h := c8_skip_preserves_existing [("dest")] 493 conflictOpts
    { fs := destFs, seen := [], skips := 0, errs := 0 }
    { name := ([] : List String), etype := EType.reg } rfl (by decide)
  exact ⟨h.1, h.2 { fs := [], seen := [], skips := 0, errs := 0 } regEntry (by decide)⟩

/-! ## C9: idempotent setup -/

theorem setupWriter_setup_of_ok (a : GoArchive) (h : (setupWriter a).2 = none) :
    ((setupWriter a).1).setup = true := by
  by_cases hs : a.setup = true
  · simp only [setupWriter, if_pos hs]
    exact hs
  · simp only [setupWriter, if_neg hs] at h ⊢
    by_cases hc0 : a.comp = 0
    · simp only [if_pos hc0] at h ⊢
      unfold wFinish at h ⊢
      by_cases ht : a.atype = 1
      · simp [ht]
      · simp [ht] at h
    · simp only [if_neg hc0] at h ⊢
      by_cases hc1 : a.comp = 1
      · simp only [if_pos hc1] at h ⊢
        unfold wFinish at h ⊢
        by_cases ht : a.atype = 1
        · simp [ht]
        · simp [ht] at h
      · simp [if_neg hc1] at h

theorem setupWriter_of_setup (a : GoArchive) (h : a.setup = true) :
    setupWriter a = (a, none) := by
  simp [setupWriter, h]

theorem setupReader_setup_of_ok (a : GoArchive) (h : (setupReader a).2 = none) :
    ((setupReader a).1).setup = true := by
  by_cases hs : a.setup = true
  · simp only [setupReader, if_pos hs]
    exact hs
  · simp only [setupReader, if_neg hs] at h ⊢
    by_cases hc0 : a.comp = 0
    · simp only [if_pos hc0] at h ⊢
      unfold rFinish at h ⊢
      by_cases ht : a.atype = 1
      · simp [ht]
      · simp [ht] at h
    · simp only [if_neg hc0] at h ⊢
      by_cases hc1 : a.comp = 1
      · simp only [if_pos hc1] at h ⊢
        unfold rFinish at h ⊢
        by_cases ht : a.atype = 1
        · simp [ht]
        · simp [ht] at h
      · simp [if_neg hc1] at h

theorem setupReader_of_setup (a : GoArchive) (h : a.setup = true) :
    setupReader a = (a, none) := by
  simp [setupReader, h]

/-- Claim C9: after a successful SetupWriter (resp. SetupReader), a
    second call returns success and the very same state — the ready
    state is reproduced and no second limiter, compressor or
    container-codec layer is constructed. -/
theorem c9_setup_idempotent (a b : GoArchive)
    (hw : (setupWriter a).2 = none) (hr : (setupReader b).2 = none) :
    setupWriter (setupWriter a).1 = ((setupWriter a).1, none)
    ∧ setupReader (setupReader b).1 = ((setupReader b).1, none) :=
  ⟨setupWriter_of_setup _ (setupWriter_setup_of_ok a hw),
   setupReader_of_setup _ (setupReader_setup_of_ok b hr)⟩

/-- Witness for C9 on a fresh plain-tar handle. -/
theorem c9_setup_idempotent_wit :
    setupWriter (setupWriter tarArchive).1 = ((setupWriter tarArchive).1, none)
    ∧ setupReader (setupReader tarArchive).1 = ((setupReader tarArchive).1, none) :=
  c9_setup_idempotent tarArchive tarArchive (by decide) (by decide)

/-! ## C10: nil options resolve to the defaults -/

/-- Claim C10: Extract with a nil options pointer behaves exactly as with
    the default options, whose values are Overwrite = true,
    RestoreTimestamps = true, RestoreOwner = false, FailOnError = false;
    under these defaults an entry whose destination path exists is
    replaced (the existing object is removed and reconstruction
    proceeds), not skipped. -/
theorem c10_nil_options_defaults :
    (∀ (base0 : List String) (tty : Bool) (fs : Fs) (es : List Entry),
        goExtract base0 none tty fs es = goExtract base0 (some newExtractOptions) tty fs es)
    ∧ newExtractOptions.overwrite = true
    ∧ newExtractOptions.restoreTimestamps = true
    ∧ newExtractOptions.restoreOwner = false
    ∧ newExtractOptions.failOnError = false
    ∧ ∀ (base : List String) (basePerm : Nat) (inter : Bool)
        (st : ExtractState) (e : Entry),
        (lookupFs st.fs (destPath base e.name)).isSome →
        extractStep base basePerm newExtractOptions inter st e
          = some (dispatchEntry base newExtractOptions
              { st with fs := removeAllFs st.fs (destPath base e.name) }
              (destPath base e.name) (cleanPathSegs e.name) e) := by
  refine ⟨fun base0 tty fs es => rfl, rfl, rfl, rfl, rfl, ?_⟩
  intro base basePerm inter st e hex
  rcases Option.isSome_iff_exists.mp hex with ⟨obj, hobj⟩
  simp [extractStep, hobj, newExtractOptions]

/-- Witness for C10: a conflicting entry under the default options is
    replaced via remove-then-reconstruct. -/
theorem c10_nil_options_defaults_wit :
    extractStep [("dest")] 493 newExtractOptions false
        { fs := destFs, seen := [], skips := 0, errs := 0 }
        { name := ([] : List String), etype := EType.reg }
      = some (dispatchEntry [("dest")] newExtractOptions
          { fs := removeAllFs destFs (destPath [("dest")] []), seen := [],
            skips := 0, errs := 0 }
          (destPath [("dest")] []) (cleanPathSegs [])
          { name := ([] : List String), etype := EType.reg }) :=
  c10_nil_options_defaults.2.2.2.2.2 [("dest")] 493 false
    { fs := destFs, seen := [], skips := 0, errs := 0 }
    { name := ([] : List String), etype := EType.reg } (by decide)

/-! ## C3 and C5: symlink reconstruction diverges from the archive -/

/-- Claim C3 evaluation (round trip at a concrete subtree): ArchivePath
    followed by Extract into the empty destination reproduces the
    directory and the regular file (same relative paths, contents,
    permission bits), but the extracted symlink's target is the
    destination-joined cleaned entry name — the symlink points at its
    own extraction path — instead of the archived raw target "t", so the
    subtree is not reproduced. -/
theorem c3_round_trip_symlink_eval :
    extractLookup [("dest")] none true destFs (archivePathRoot ("root") sampleTree)
        [("dest"), ("root")] = some (FsObj.dir 493 0 0 0 0)
    ∧ extractLookup [("dest")] none true destFs (archivePathRoot ("root") sampleTree)
        [("dest"), ("root"), ("a")] = some (FsObj.file 420 [1, 2, 3] 0 0 0 0)
    ∧ extractLookup [("dest")] none true destFs (archivePathRoot ("root") sampleTree)
        [("dest"), ("root"), ("s")] = some (FsObj.symlink [("dest"), ("root"), ("s")])
    ∧ (FsObj.symlink [("dest"), ("root"), ("s")] : FsObj)
        ≠ FsObj.symlink [("t")] := by
  exact ⟨by decide, by decide, by decide, by decide⟩

/-- Claim C5 evaluation: extracting a single symlink entry whose raw
    archived target is "t" creates a symlink whose target is
    Join(destRoot, cleanPath(entry name)) — its own path — because the
    source overwrites h.Linkname with the cleaned entry name and the
    POSIX adapter joins the link target with the destination root; the
    existing object at the path is removed first, but the target is not
    the raw link text. -/
theorem c5_symlink_raw_target_eval :
    extractLookup [("dest")] none true destFs [symEntry] [("dest"), ("s")]
        = some (FsObj.symlink [("dest"), ("s")])
    ∧ extractLookup [("dest")] none true
        (([("dest"), ("s")], FsObj.file 420 [9] 0 0 0 0) :: destFs) [symEntry]
        [("dest"), ("s")] = some (FsObj.symlink [("dest"), ("s")])
    ∧ (FsObj.symlink [("dest"), ("s")] : FsObj) ≠ FsObj.symlink [("t")] := by
  exact ⟨by decide, by decide, by decide⟩
